import Mathlib

/-!
Shallow embedding of the version-resolution core of the `depfix` repository
(`src/core/resolve_python.py`, data model in `src/core/models.py`).

Versions and specifiers are the fragment of PEP 440 (the `packaging` library,
which the source delegates to) that the resolver exercises: an optional
numeric epoch (`E!`), a dot-separated numeric release tuple, and plain
comparison specifiers (`==`, `!=`, `<=`, `>=`, `<`, `>`) joined by commas.
Strings outside this fragment (pre-releases, wildcards, `~=`, `===`, local
labels) are modelled as parse failures.
-/

namespace DepFix

/-- Comparison of an exhausted release tuple against the remainder of the
other tuple: the exhausted side is padded with zeros. -/
def cmpNilLeft : List Nat → Ordering
  | [] => .eq
  | y :: ys =>
    match compare 0 y with
    | .eq => cmpNilLeft ys
    | o => o

/-- Ordering of PEP 440 release tuples: compared position by position with the
shorter tuple padded with zeros (so `1.0` equals `1.0.0`). -/
def cmpRelease : List Nat → List Nat → Ordering
  | [], b => cmpNilLeft b
  | x :: xs, [] =>
    match compare x 0 with
    | .eq => cmpRelease xs []
    | o => o
  | x :: xs, y :: ys =>
    match compare x y with
    | .eq => cmpRelease xs ys
    | o => o

/-- Version model: PEP 440 epoch plus numeric release components, the fragment
of `packaging.version.Version` the resolver exercises. -/
structure Version where
  epoch : Nat
  release : List Nat
deriving DecidableEq, Repr

/-- Comparison of versions: epoch dominates, then the release tuples. -/
def Version.cmp (a b : Version) : Ordering :=
  match compare a.epoch b.epoch with
  | .eq => cmpRelease a.release b.release
  | o => o

/-- Strict order used by the Python `max` / `>` on `packaging` versions. -/
def Version.lt (a b : Version) : Bool := a.cmp b == .lt

/-- Major component (`Version.major` in `packaging`): first release component,
0 when absent. -/
def Version.major (v : Version) : Nat := v.release.getD 0 0

/-- Minor component: second release component, 0 when absent. -/
def Version.minor (v : Version) : Nat := v.release.getD 1 0

/-- Micro component: third release component, 0 when absent. -/
def Version.micro (v : Version) : Nat := v.release.getD 2 0

/-- Rendering of a version back to a string, as Python `str(Version(...))`
does for this fragment. -/
def Version.render (v : Version) : String :=
  let rel := String.intercalate "." (v.release.map toString)
  if v.epoch = 0 then rel else s!"{v.epoch}!{rel}"

/-- Whitespace stripping of both ends of a character list, as Python
`str.strip()`. -/
def trimChars (cs : List Char) : List Char :=
  ((cs.dropWhile Char.isWhitespace).reverse.dropWhile Char.isWhitespace).reverse

/-- Splitting of a character list on a separator, as Python `str.split(sep)`:
the empty string yields one empty group, separators at the ends yield empty
groups. -/
def splitOnChar (sep : Char) : List Char → List (List Char)
  | [] => [[]]
  | c :: cs =>
    match splitOnChar sep cs with
    | g :: gs => if c == sep then [] :: (g :: gs) else (c :: g) :: gs
    | [] => [[]]

/-- Parsing of a nonempty all-digit character list as a number, as Python
`int(s)` restricted to unsigned decimals. -/
def digitsToNat (cs : List Char) : Option Nat :=
  if !cs.isEmpty && cs.all Char.isDigit then
    some (cs.foldl (fun acc c => acc * 10 + (c.toNat - '0'.toNat)) 0)
  else none

/-- Parsing of a dot-separated numeric release tuple; any non-numeric or
empty component is a parse failure. -/
def parseReleaseChars (cs : List Char) : Option (List Nat) :=
  let nums := (splitOnChar '.' cs).map digitsToNat
  if nums.all Option.isSome then some (nums.map (Option.getD · 0)) else none

/-- Parsing of a version: optional `E!` epoch, then the release tuple;
surrounding whitespace is stripped as `packaging` does. Strings outside the
modelled fragment fail to parse. -/
def parseVersionChars (cs : List Char) : Option Version :=
  match splitOnChar '!' (trimChars cs) with
  | [rel] => (parseReleaseChars rel).map (fun r => ⟨0, r⟩)
  | [ep, rel] =>
    match digitsToNat ep, parseReleaseChars rel with
    | some e, some r => some ⟨e, r⟩
    | _, _ => none
  | _ => none

/-- Parsing of a version string (`packaging.version.Version(...)`), on the
modelled fragment. -/
def parseVersion (s : String) : Option Version := parseVersionChars s.data

/-- Comparison operators of the modelled specifier fragment. -/
inductive Op
  | eq | ne | le | ge | lt | gt
deriving DecidableEq, Repr

/-- Satisfaction of one operator given `compare candidate pivot`. -/
def Op.sat (o : Op) (ord : Ordering) : Bool :=
  match o with
  | .eq => ord == .eq
  | .ne => ord != .eq
  | .le => ord != .gt
  | .ge => ord != .lt
  | .lt => ord == .lt
  | .gt => ord == .gt

/-- Single specifier: operator plus pivot version. -/
structure Specifier where
  op : Op
  version : Version
deriving DecidableEq, Repr

/-- Parsing of one specifier clause (e.g. `>=3.8`). Operators outside the
modelled fragment (`~=`, `===`, wildcards) fail to parse, as does a missing
operator. -/
def parseSpecifierChars (cs : List Char) : Option Specifier :=
  match trimChars cs with
  | '=' :: '=' :: rest => (parseVersionChars rest).map (fun v => ⟨.eq, v⟩)
  | '!' :: '=' :: rest => (parseVersionChars rest).map (fun v => ⟨.ne, v⟩)
  | '<' :: '=' :: rest => (parseVersionChars rest).map (fun v => ⟨.le, v⟩)
  | '>' :: '=' :: rest => (parseVersionChars rest).map (fun v => ⟨.ge, v⟩)
  | '<' :: rest => (parseVersionChars rest).map (fun v => ⟨.lt, v⟩)
  | '>' :: rest => (parseVersionChars rest).map (fun v => ⟨.gt, v⟩)
  | _ => none

/-- Parsing of a `SpecifierSet`: comma-separated clauses, blanks skipped; the
whole set fails to parse when any clause does. -/
def parseSpecifierSet (s : String) : Option (List Specifier) :=
  let parts := ((splitOnChar ',' s.data).map trimChars).filter
    (fun p => !p.isEmpty)
  let specs := parts.map parseSpecifierChars
  if specs.all Option.isSome then
    some (specs.map (Option.getD · ⟨Op.eq, ⟨0, []⟩⟩))
  else none

/-- Membership `v in spec_set`: every clause must be satisfied. -/
def specContains (specs : List Specifier) (v : Version) : Bool :=
  specs.all (fun sp => sp.op.sat (v.cmp sp.version))

/-- Step of Python `max`: the running maximum is replaced only by a strictly
greater element. -/
def pymaxStep (m x : Version) : Version := if m.lt x then x else m

/-- Maximum of a list of versions with Python `max` semantics; `none` on
the empty list (where Python `max` raises). -/
def pymax : List Version → Option Version
  | [] => none
  | v :: vs => some (vs.foldl pymaxStep v)

/-- ManifestEntry from `src/core/models.py`: a single dependency entry. -/
structure ManifestEntry where
  name : String
  spec : Option String := none
  markers : Option String := none
  extras : Option (List String) := none
  source_type : String := "registry"
deriving DecidableEq, Repr

/-- ResolutionResult from `src/core/models.py`; the advisory dicts are
abstracted as strings (the resolver always leaves the list empty). -/
structure ResolutionResult where
  entry : ManifestEntry
  chosen_version : String
  reason : String
  semver_delta : String := "unknown"
  advisories : List String := []
deriving DecidableEq, Repr

/-- Per-artifact record of a release: the optional `requires_python`
compatibility expression (`none` covers an absent key and a JSON null). -/
structure FileInfo where
  requires_python : Option String := none
deriving DecidableEq, Repr

/-- Package metadata as the resolver reads it from the registry JSON: the
optional authoritative `info.version` field, plus the ordered
`releases` mapping from version string to its artifact records (an absent
`releases` key is the empty mapping, as `metadata.get("releases", {})`). -/
structure Metadata where
  info_version : Option String := none
  releases : List (String × List FileInfo) := []
deriving DecidableEq, Repr

/-- Errors raised by the resolver (`raise Exception(...)` sites), tagged by
which message is produced. -/
inductive ResolveError
  | packageNotFound (name : String)
  | noReleases (name : String)
  | noCompatibleVersions (name : String)
  | fetchTimeout (name : String)
  | httpError (name : String) (code : Nat)
  | networkError (name : String)
  | invalidVersion (name : String)
deriving DecidableEq, Repr

/-- Loop body of `_is_compatible_with_python`: walks the artifact records;
a record with a nonempty, parseable `requires_python` whose specifier set the
(parseable) target does not satisfy returns `False` immediately; records with
no expression, an empty one, or any parse failure are skipped. -/
def compatLoop (pv : String) : List FileInfo → Bool
  | [] => true
  | fi :: rest =>
    match fi.requires_python with
    | none => compatLoop pv rest
    | some rp =>
      if rp = "" then compatLoop pv rest
      else
        match parseSpecifierSet rp, parseVersion pv with
        | some specs, some target =>
          if specContains specs target then compatLoop pv rest else false
        | _, _ => compatLoop pv rest

/-- Compatibility filter `_is_compatible_with_python` from
`src/core/resolve_python.py` lines 175-201: with no target Python version
every release passes; otherwise the record loop decides. -/
def is_compatible_with_python (python_version : Option String)
    (release_files : List FileInfo) : Bool :=
  match python_version with
  | none => true
  | some pv => compatLoop pv release_files

/-- Classification step of `_calculate_semver_delta` once both versions have
parsed (lines 231-240): strictly greater, then major/minor/micro compared in
order, else `unknown`. -/
def deltaCore (old_ver new_ver : Version) : String :=
  if old_ver.lt new_ver then
    if old_ver.major < new_ver.major then "major"
    else if old_ver.minor < new_ver.minor then "minor"
    else if old_ver.micro < new_ver.micro then "patch"
    else "unknown"
  else "unknown"

/-- Test of the regex `^\d+\.` used at line 221: a nonempty run of leading
digits followed immediately by a dot. -/
def bareVersionMatch (s : String) : Bool :=
  let cs := s.data
  let ds := cs.takeWhile Char.isDigit
  !ds.isEmpty && ((cs.drop ds.length).head? == some '.')

/-- Extraction of the baseline version from a specifier (lines 217-223): an
exact `==` pin keeps the stripped remainder, a bare version keeps the
stripped specifier itself, anything else yields no baseline. -/
def currentVersionOf (spec : String) : Option (List Char) :=
  match spec.data with
  | '=' :: '=' :: rest => some (trimChars rest)
  | _ =>
    if bareVersionMatch spec then some (trimChars spec.data) else none

/-- Delta classifier `_calculate_semver_delta` (lines 203-243). Total: every
exceptional path inside the source is caught and degraded to "unknown", so
classification never fails the overall resolution. -/
def calculate_semver_delta (entry : ManifestEntry) (new_version : String) :
    String :=
  match entry.spec with
  | none => "unknown"
  | some spec =>
    if spec = "" then "unknown"
    else
      match currentVersionOf spec with
      | none => "unknown"
      | some cur =>
        if cur.isEmpty then "unknown"
        else
          match parseVersionChars cur, parseVersion new_version with
          | some old_ver, some new_ver => deltaCore old_ver new_ver
          | _, _ => "unknown"

/-- Candidate versions of `resolve_entry` lines 79-87: release keys that
parse, kept when the compatibility filter accepts their artifact records. -/
def availableVersions (python_version : Option String)
    (releases : List (String × List FileInfo)) : List Version :=
  releases.filterMap (fun p =>
    match parseVersion p.1 with
    | none => none
    | some v =>
      if is_compatible_with_python python_version p.2 then some v else none)

/-- Maximum of all parseable release keys of a package, ignoring the
compatibility filter (the unfiltered candidate set of spec section 8). -/
def unfilteredMax (m : Metadata) : Option Version :=
  pymax (m.releases.filterMap (fun p => parseVersion p.1))

/-- Constraint evaluation of `resolve_entry` lines 92-111: the chosen version
and the base reason string, given the filtered candidates and their maximum.
A falsy (absent or empty) specifier takes the unconstrained branch; a
parseable specifier takes the maximum of the satisfying candidates, falling
back to the maximum of all candidates when none satisfies it; an unparseable
specifier is ignored with an explanatory reason. -/
def selectVersion (available : List Version) (maxAvail : Version) :
    Option String → Version × String
  | some spec =>
    if spec = "" then (maxAvail, "Latest available version (no constraints)")
    else
      match parseSpecifierSet spec with
      | some specs =>
        match pymax (available.filter (specContains specs)) with
        | some maxCompat =>
          (maxCompat, s!"Latest version satisfying constraint {spec}")
        | none =>
          (maxAvail, s!"No versions satisfy {spec}, using latest available")
      | none =>
        (maxAvail, s!"Invalid constraint {spec}, using latest available")
  | none => (maxAvail, "Latest available version (no constraints)")

/-- Python-version context appended to the reason (lines 113-115). -/
def withPythonContext (python_version : Option String) (reason : String) :
    String :=
  match python_version with
  | some pv => reason ++ s!" for Python {pv}"
  | none => reason

/-- Assembly of the ResolutionResult (lines 117-125). -/
def assembleResult (python_version : Option String) (entry : ManifestEntry)
    (available : List Version) (maxAvail : Version) : ResolutionResult :=
  let cr := selectVersion available maxAvail entry.spec
  { entry := entry
    chosen_version := cr.1.render
    reason := withPythonContext python_version cr.2
    semver_delta := calculate_semver_delta entry cr.1.render
    advisories := [] }

/-- Resolution pipeline of `resolve_entry` (lines 60-125) after the metadata
fetch: `none` metadata models a falsy fetch result (package not found). -/
def resolveEntryCore (python_version : Option String)
    (metadata : Option Metadata) (entry : ManifestEntry) :
    Except ResolveError ResolutionResult :=
  match metadata with
  | none => .error (.packageNotFound entry.name)
  | some m =>
    if m.releases.isEmpty then .error (.noReleases entry.name)
    else
      match pymax (availableVersions python_version m.releases) with
      | none => .error (.noCompatibleVersions entry.name)
      | some maxAvail =>
        .ok (assembleResult python_version entry
          (availableVersions python_version m.releases) maxAvail)

/-- Release keys parsed as versions, `none` when any key fails to parse
(the list comprehension `[Version(v) for v in releases.keys()]` raises at the
first invalid key). -/
def releaseVersions (m : Metadata) : Option (List Version) :=
  let parsed := m.releases.map (fun p => parseVersion p.1)
  if parsed.all Option.isSome then some (parsed.filterMap id) else none

/-- Latest-version lookup `get_latest_version` (lines 35-58) after the fetch:
the `info.version` field is authoritative when present; otherwise the maximum
of the release keys. -/
def get_latest_version (metadata : Option Metadata) (package_name : String) :
    Except ResolveError String :=
  match metadata with
  | none => .error (.packageNotFound package_name)
  | some m =>
    match m.info_version with
    | some v => .ok v
    | none =>
      if m.releases.isEmpty then .error (.noReleases package_name)
      else
        match releaseVersions m with
        | none => .error (.invalidVersion package_name)
        | some vs =>
          match pymax vs with
          | some v => .ok v.render
          | none => .error (.invalidVersion package_name)

/-- Possible registry responses at the single network boundary of
`_fetch_package_metadata`: a JSON body, a 404 status, another error status,
a timeout, or a transport failure. -/
inductive RegistryResponse
  | success (m : Metadata)
  | notFound
  | httpStatus (code : Nat)
  | fetchTimeout
  | networkFailure

/-- Registry environment: what one GET for each package name would return. -/
abbrev Registry := String → RegistryResponse

/-- Outcome of one `_fetch_package_metadata` call: the returned value (or
raised error), the cache afterwards, and whether the network was used. -/
structure FetchOutcome where
  result : Except ResolveError (Option Metadata)
  cache : List (String × Metadata)
  network_used : Bool

/-- Metadata fetch `_fetch_package_metadata` (lines 139-173): cache hit skips
the network; a 404 (checked directly or via the status-error handler) returns
`None` uncached; a success response is cached then returned; timeouts, other
statuses and transport failures raise. -/
def fetch_package_metadata (reg : Registry)
    (cache : List (String × Metadata)) (package_name : String) :
    FetchOutcome :=
  match cache.lookup package_name with
  | some m => ⟨.ok (some m), cache, false⟩
  | none =>
    match reg package_name with
    | .success m => ⟨.ok (some m), (package_name, m) :: cache, true⟩
    | .notFound => ⟨.ok none, cache, true⟩
    | .httpStatus code =>
      if code = 404 then ⟨.ok none, cache, true⟩
      else ⟨.error (.httpError package_name code), cache, true⟩
    | .fetchTimeout => ⟨.error (.fetchTimeout package_name), cache, true⟩
    | .networkFailure => ⟨.error (.networkError package_name), cache, true⟩

/-- One entry of `resolve_entry` including its fetch: the fetch error or the
core pipeline result, together with the cache afterwards. -/
def resolveOne (python_version : Option String) (reg : Registry)
    (cache : List (String × Metadata)) (entry : ManifestEntry) :
    Except ResolveError ResolutionResult × List (String × Metadata) :=
  let f := fetch_package_metadata reg cache entry.name
  match f.result with
  | .error e => (.error e, f.cache)
  | .ok m => (resolveEntryCore python_version m entry, f.cache)

/-- Collection of finished task outcomes in task order, stopping at the first
error, as `asyncio.gather` assembles its return value. -/
def collectResults {E A : Type} : List (Except E A) → Except E (List A)
  | [] => .ok []
  | t :: ts =>
    match t with
    | .error e => .error e
    | .ok a =>
      match collectResults ts with
      | .ok rest => .ok (a :: rest)
      | .error e => .error e

/-- Model of `asyncio.gather` over already-determined task outcomes: `order`
is the completion order of the tasks (a list of task indices); the error of
the first-completing failed task propagates, otherwise the results are
returned in task order. -/
def gatherTasks {E A : Type} (tasks : List (Except E A)) (order : List Nat) :
    Except E (List A) :=
  match order.findSome? (fun i =>
      match tasks[i]? with
      | some (Except.error e) => some e
      | _ => none) with
  | some e => .error e
  | none => collectResults tasks

/-- Task list of `resolve_entries` line 136: one `resolve_entry` outcome per
entry, in entry order. -/
def tasksOf (python_version : Option String) (reg : Registry)
    (cache : List (String × Metadata)) (entries : List ManifestEntry) :
    List (Except ResolveError ResolutionResult) :=
  entries.map (fun e => (resolveOne python_version reg cache e).1)

/-- Batch resolution `resolve_entries` (lines 127-137): one task per entry,
gathered under a completion order. Each task is evaluated against the shared
initial cache: by `fetch_result_cache_independent` below, a cache consistent
with the registry never changes a task's value, so the interleaving of the
shared cache is irrelevant to the results. -/
def resolve_entries (python_version : Option String) (reg : Registry)
    (cache : List (String × Metadata)) (entries : List ManifestEntry)
    (order : List Nat) : Except ResolveError (List ResolutionResult) :=
  gatherTasks (tasksOf python_version reg cache entries) order

/-- Consistency of a cache with the registry: every cached value is exactly
what a fresh fetch of that name would return. This is the cache invariant the
resolver maintains (only successful responses are stored). -/
def cacheConsistent (reg : Registry) (cache : List (String × Metadata)) :
    Prop :=
  ∀ k m, cache.lookup k = some m → reg k = .success m

/-! Order-theoretic facts about the version comparison. -/

lemma cmpRelease_step (a b : List Nat) (h : ¬(a = [] ∧ b = [])) :
    cmpRelease a b =
      match compare (a.getD 0 0) (b.getD 0 0) with
      | .eq => cmpRelease a.tail b.tail
      | o => o := by
  match a, b with
  | [], [] => exact absurd ⟨rfl, rfl⟩ h
  | [], y :: ys => rfl
  | x :: xs, [] => rfl
  | x :: xs, y :: ys => rfl

lemma cmpRelease_self : ∀ r : List Nat, cmpRelease r r = .eq
  | [] => rfl
  | x :: xs => by
    have hx : compare x x = Ordering.eq := Nat.compare_eq_eq.mpr rfl
    simp only [cmpRelease, hx]
    exact cmpRelease_self xs

lemma cmpRelease_nil_right : ∀ b : List Nat,
    cmpRelease b [] = (cmpNilLeft b).swap
  | [] => rfl
  | y :: ys => by
    have hsw : compare y 0 = (compare 0 y).swap :=
      (Nat.compare_swap 0 y).symm
    simp only [cmpRelease, cmpNilLeft, hsw]
    cases compare 0 y with
    | eq => exact cmpRelease_nil_right ys
    | lt => rfl
    | gt => rfl

lemma cmpRelease_swap : ∀ a b : List Nat,
    cmpRelease b a = (cmpRelease a b).swap
  | [], b => by
    simpa using cmpRelease_nil_right b
  | x :: xs, [] => by
    rw [cmpRelease_nil_right (x :: xs)]
    simp [cmpRelease, Ordering.swap_swap]
  | x :: xs, y :: ys => by
    have hsw : compare y x = (compare x y).swap :=
      (Nat.compare_swap x y).symm
    simp only [cmpRelease, hsw]
    cases compare x y with
    | eq => exact cmpRelease_swap xs ys
    | lt => rfl
    | gt => rfl

lemma cmpRelease_lt_trans_fuel : ∀ (n : Nat) (a b c : List Nat),
    a.length + b.length + c.length ≤ n →
    cmpRelease a b = .lt → cmpRelease b c = .lt → cmpRelease a c = .lt := by
  intro n
  induction n with
  | zero =>
    intro a b c hlen h1 _
    have ha : a = [] := List.eq_nil_of_length_eq_zero (by omega)
    have hb : b = [] := List.eq_nil_of_length_eq_zero (by omega)
    rw [ha, hb] at h1
    simp [cmpRelease, cmpNilLeft] at h1
  | succ n ih =>
    intro a b c hlen h1 h2
    by_cases hab : a = [] ∧ b = []
    · rw [hab.1, hab.2] at h1
      simp [cmpRelease, cmpNilLeft] at h1
    by_cases hbc : b = [] ∧ c = []
    · rw [hbc.1, hbc.2] at h2
      simp [cmpRelease, cmpNilLeft] at h2
    by_cases hac : a = [] ∧ c = []
    · exfalso
      rw [hac.1] at h1
      rw [hac.2] at h2
      rw [cmpRelease_swap] at h2
      rw [h1] at h2
      simp [Ordering.swap] at h2
    rw [cmpRelease_step a b hab] at h1
    rw [cmpRelease_step b c hbc] at h2
    rw [cmpRelease_step a c hac]
    rcases h1c : compare (a.getD 0 0) (b.getD 0 0) with _ | _ | _ <;>
      rw [h1c] at h1
    · rcases h2c : compare (b.getD 0 0) (c.getD 0 0) with _ | _ | _ <;>
        rw [h2c] at h2
      · have : a.getD 0 0 < c.getD 0 0 :=
          lt_trans (Nat.compare_eq_lt.mp h1c) (Nat.compare_eq_lt.mp h2c)
        rw [Nat.compare_eq_lt.mpr this]
      · have : a.getD 0 0 < c.getD 0 0 :=
          (Nat.compare_eq_eq.mp h2c) ▸ (Nat.compare_eq_lt.mp h1c)
        rw [Nat.compare_eq_lt.mpr this]
      · exact absurd h2 (by simp)
    · rcases h2c : compare (b.getD 0 0) (c.getD 0 0) with _ | _ | _ <;>
        rw [h2c] at h2
      · have : a.getD 0 0 < c.getD 0 0 :=
          (Nat.compare_eq_eq.mp h1c) ▸ (Nat.compare_eq_lt.mp h2c)
        rw [Nat.compare_eq_lt.mpr this]
      · have heq : a.getD 0 0 = c.getD 0 0 :=
          (Nat.compare_eq_eq.mp h1c).trans (Nat.compare_eq_eq.mp h2c)
        rw [Nat.compare_eq_eq.mpr heq]
        have hlt : a.tail.length + b.tail.length + c.tail.length ≤ n := by
          have hne : a ≠ [] ∨ b ≠ [] := by
            by_contra hcon
            push_neg at hcon
            exact hab ⟨hcon.1, hcon.2⟩
          rcases hne with hne | hne <;>
            · have := List.length_pos.mpr hne
              simp [List.length_tail]
              omega
        exact ih a.tail b.tail c.tail hlt h1 h2
      · exact absurd h2 (by simp)
    · exact absurd h1 (by simp)

lemma cmpRelease_lt_trans {a b c : List Nat}
    (h1 : cmpRelease a b = .lt) (h2 : cmpRelease b c = .lt) :
    cmpRelease a c = .lt :=
  cmpRelease_lt_trans_fuel (a.length + b.length + c.length) a b c le_rfl h1 h2

lemma Version.cmp_self (a : Version) : a.cmp a = .eq := by
  simp [Version.cmp, Nat.compare_eq_eq.mpr rfl, cmpRelease_self]

lemma Version.cmp_swap (a b : Version) : b.cmp a = (a.cmp b).swap := by
  unfold Version.cmp
  have hsw : compare b.epoch a.epoch = (compare a.epoch b.epoch).swap :=
    (Nat.compare_swap a.epoch b.epoch).symm
  rw [hsw]
  cases compare a.epoch b.epoch with
  | eq => exact cmpRelease_swap a.release b.release
  | lt => rfl
  | gt => rfl

lemma Version.cmp_lt_trans {a b c : Version}
    (h1 : a.cmp b = .lt) (h2 : b.cmp c = .lt) : a.cmp c = .lt := by
  unfold Version.cmp at h1 h2 ⊢
  rcases h1c : compare a.epoch b.epoch with _ | _ | _ <;> rw [h1c] at h1 <;>
    rcases h2c : compare b.epoch c.epoch with _ | _ | _ <;> rw [h2c] at h2
  · rw [Nat.compare_eq_lt.mpr
      (lt_trans (Nat.compare_eq_lt.mp h1c) (Nat.compare_eq_lt.mp h2c))]
  · rw [Nat.compare_eq_lt.mpr
      ((Nat.compare_eq_eq.mp h2c) ▸ (Nat.compare_eq_lt.mp h1c))]
  · exact absurd h2 (by simp)
  · rw [Nat.compare_eq_lt.mpr
      ((Nat.compare_eq_eq.mp h1c) ▸ (Nat.compare_eq_lt.mp h2c))]
  · rw [Nat.compare_eq_eq.mpr
      ((Nat.compare_eq_eq.mp h1c).trans (Nat.compare_eq_eq.mp h2c))]
    exact cmpRelease_lt_trans h1 h2
  · exact absurd h2 (by simp)
  · exact absurd h1 (by simp)
  · exact absurd h1 (by simp)
  · exact absurd h1 (by simp)

lemma Version.lt_irrefl (a : Version) : a.lt a = false := by
  simp only [Version.lt, Version.cmp_self]
  rfl

lemma ord_beq_lt {o : Ordering} (h : (o == Ordering.lt) = true) :
    o = Ordering.lt := by
  cases o with
  | lt => rfl
  | eq => exact Bool.noConfusion h
  | gt => exact Bool.noConfusion h

lemma Version.lt_shift {m w x : Version} (h1 : m.lt w = false)
    (h2 : m.lt x = true) : x.lt w = false := by
  by_contra hx
  rw [Bool.not_eq_false] at hx
  have htr := Version.cmp_lt_trans (ord_beq_lt h2) (ord_beq_lt hx)
  simp only [Version.lt, htr] at h1
  exact Bool.noConfusion h1

lemma pymax_foldl_mem : ∀ (vs : List Version) (a : Version),
    vs.foldl pymaxStep a = a ∨ vs.foldl pymaxStep a ∈ vs
  | [], _ => Or.inl rfl
  | x :: xs, a => by
    rw [List.foldl_cons]
    rcases pymax_foldl_mem xs (pymaxStep a x) with h | h
    · rw [h]
      unfold pymaxStep
      by_cases hlt : a.lt x = true
      · rw [if_pos hlt]
        exact Or.inr (List.mem_cons_self x xs)
      · rw [if_neg hlt]
        exact Or.inl rfl
    · exact Or.inr (List.mem_cons_of_mem x h)

lemma pymax_mem {vs : List Version} {v : Version} (h : pymax vs = some v) :
    v ∈ vs := by
  match vs with
  | [] => exact Option.noConfusion h
  | a :: xs =>
    have hv : xs.foldl pymaxStep a = v := Option.some.inj h
    rcases pymax_foldl_mem xs a with h2 | h2
    · rw [← hv, h2]
      exact List.mem_cons_self a xs
    · rw [← hv]
      exact List.mem_cons_of_mem a h2

lemma pymax_foldl_ge_start : ∀ (vs : List Version) (a w : Version),
    a.lt w = false → (vs.foldl pymaxStep a).lt w = false
  | [], _, _ => fun h => h
  | x :: xs, a, w => fun h => by
    rw [List.foldl_cons]
    apply pymax_foldl_ge_start xs
    unfold pymaxStep
    by_cases hlt : a.lt x = true
    · rw [if_pos hlt]
      exact Version.lt_shift h hlt
    · rw [if_neg hlt]
      exact h

lemma pymaxStep_ge_left (a x : Version) : (pymaxStep a x).lt a = false := by
  unfold pymaxStep
  cases hlt : a.lt x with
  | true =>
    rw [if_pos rfl]
    exact Version.lt_shift (Version.lt_irrefl a) hlt
  | false =>
    rw [if_neg Bool.false_ne_true]
    exact Version.lt_irrefl a

lemma pymaxStep_ge_right (a x : Version) : (pymaxStep a x).lt x = false := by
  unfold pymaxStep
  cases hlt : a.lt x with
  | true =>
    rw [if_pos rfl]
    exact Version.lt_irrefl x
  | false =>
    rw [if_neg Bool.false_ne_true]
    exact hlt

lemma pymax_foldl_ge : ∀ (vs : List Version) (a w : Version),
    w = a ∨ w ∈ vs → (vs.foldl pymaxStep a).lt w = false
  | [], a, w, h => by
    rcases h with h | h
    · rw [h]
      exact Version.lt_irrefl a
    · exact absurd h (List.not_mem_nil w)
  | x :: xs, a, w, h => by
    rw [List.foldl_cons]
    rcases h with h | h
    · rw [h]
      exact pymax_foldl_ge_start xs (pymaxStep a x) a (pymaxStep_ge_left a x)
    · rcases List.mem_cons.mp h with h | h
      · rw [h]
        exact pymax_foldl_ge_start xs (pymaxStep a x) x (pymaxStep_ge_right a x)
      · exact pymax_foldl_ge xs (pymaxStep a x) w (Or.inr h)

lemma pymax_ge {vs : List Version} {v : Version} (h : pymax vs = some v) :
    ∀ w ∈ vs, v.lt w = false := by
  match vs with
  | [] => exact fun w hw => absurd hw (List.not_mem_nil w)
  | a :: xs =>
    intro w hw
    have hv : xs.foldl pymaxStep a = v := Option.some.inj h
    rcases List.mem_cons.mp hw with hww | hw
    · exact hv ▸ pymax_foldl_ge xs a w (Or.inl hww)
    · exact hv ▸ pymax_foldl_ge xs a w (Or.inr hw)

lemma cmpRelease_lt_head {a b : List Nat} (h : cmpRelease a b = .lt) :
    a.getD 0 0 < b.getD 0 0 ∨
      (a.getD 0 0 = b.getD 0 0 ∧ cmpRelease a.tail b.tail = .lt) := by
  have hab : ¬(a = [] ∧ b = []) := by
    rintro ⟨rfl, rfl⟩
    simp [cmpRelease, cmpNilLeft] at h
  rw [cmpRelease_step a b hab] at h
  rcases hc : compare (a.getD 0 0) (b.getD 0 0) with _ | _ | _ <;> rw [hc] at h
  · exact Or.inl (Nat.compare_eq_lt.mp hc)
  · exact Or.inr ⟨Nat.compare_eq_eq.mp hc, h⟩
  · exact absurd h (by simp)

lemma getD_tail (r : List Nat) (i : Nat) :
    r.tail.getD i 0 = r.getD (i + 1) 0 := by
  cases r <;> simp [List.getD]

lemma version_lt_release {a b : Version} (hep : a.epoch = b.epoch)
    (h : a.lt b = true) : cmpRelease a.release b.release = .lt := by
  have hc := ord_beq_lt h
  unfold Version.cmp at hc
  rw [hep, Nat.compare_eq_eq.mpr rfl] at hc
  simpa using hc

lemma deltaCore_major {a b : Version} (hep : a.epoch = b.epoch)
    (hlt : a.lt b = true) (hmaj : a.major ≠ b.major) :
    deltaCore a b = "major" := by
  rcases cmpRelease_lt_head (version_lt_release hep hlt) with hh | ⟨hh, _⟩
  · simp only [deltaCore, hlt, if_true]
    rw [if_pos (show a.major < b.major from hh)]
  · exact absurd (show a.major = b.major from hh) hmaj

lemma deltaCore_minor {a b : Version} (hep : a.epoch = b.epoch)
    (hlt : a.lt b = true) (hmaj : a.major = b.major)
    (hmin : a.minor ≠ b.minor) : deltaCore a b = "minor" := by
  rcases cmpRelease_lt_head (version_lt_release hep hlt) with hh | ⟨_, htail⟩
  · exact absurd (show a.major < b.major from hh)
      (by rw [hmaj]; exact Nat.lt_irrefl _)
  · rcases cmpRelease_lt_head htail with hh2 | ⟨hh2, _⟩
    · rw [getD_tail, getD_tail] at hh2
      simp only [deltaCore, hlt, if_true]
      rw [if_neg (show ¬(a.major < b.major) by rw [hmaj]; exact Nat.lt_irrefl _),
        if_pos (show a.minor < b.minor from hh2)]
    · rw [getD_tail, getD_tail] at hh2
      exact absurd (show a.minor = b.minor from hh2) hmin

lemma deltaCore_patch {a b : Version} (hep : a.epoch = b.epoch)
    (hlt : a.lt b = true) (hmaj : a.major = b.major)
    (hmin : a.minor = b.minor) (hmic : a.micro ≠ b.micro) :
    deltaCore a b = "patch" := by
  rcases cmpRelease_lt_head (version_lt_release hep hlt) with hh | ⟨_, htail⟩
  · exact absurd (show a.major < b.major from hh)
      (by rw [hmaj]; exact Nat.lt_irrefl _)
  · rcases cmpRelease_lt_head htail with hh2 | ⟨_, htail2⟩
    · rw [getD_tail, getD_tail] at hh2
      exact absurd (show a.minor < b.minor from hh2)
        (by rw [hmin]; exact Nat.lt_irrefl _)
    · rcases cmpRelease_lt_head htail2 with hh3 | ⟨hh3, _⟩
      · rw [getD_tail, getD_tail, getD_tail, getD_tail] at hh3
        simp only [deltaCore, hlt, if_true]
        rw [if_neg (show ¬(a.major < b.major) by rw [hmaj]; exact Nat.lt_irrefl _),
          if_neg (show ¬(a.minor < b.minor) by rw [hmin]; exact Nat.lt_irrefl _),
          if_pos (show a.micro < b.micro from hh3)]
      · rw [getD_tail, getD_tail, getD_tail, getD_tail] at hh3
        exact absurd (show a.micro = b.micro from hh3) hmic

lemma releaseVersions_ne_nil {m : Metadata} {vs : List Version}
    (hrel : m.releases ≠ []) (h : releaseVersions m = some vs) : vs ≠ [] := by
  unfold releaseVersions at h
  rcases hm : m.releases with _ | ⟨p, rest⟩
  · exact absurd hm hrel
  · rw [hm] at h
    by_cases hall : ((p :: rest).map (fun q => parseVersion q.1)).all
        Option.isSome = true
    · rw [if_pos hall] at h
      cases h
      rw [List.map_cons, List.all_cons] at hall
      rcases Bool.and_eq_true_iff.mp hall with ⟨h1, _⟩
      rcases Option.isSome_iff_exists.mp h1 with ⟨v, hv⟩
      simp [hv]
    · rw [if_neg hall] at h
      exact Option.noConfusion h

lemma fetch_hit (reg : Registry) (cache : List (String × Metadata))
    (name : String) (m : Metadata) (h : cache.lookup name = some m) :
    fetch_package_metadata reg cache name = ⟨.ok (some m), cache, false⟩ := by
  unfold fetch_package_metadata
  rw [h]

lemma fetch_miss (reg : Registry) (cache : List (String × Metadata))
    (name : String) (h : cache.lookup name = none) :
    fetch_package_metadata reg cache name =
      (match reg name with
       | .success m => ⟨.ok (some m), (name, m) :: cache, true⟩
       | .notFound => ⟨.ok none, cache, true⟩
       | .httpStatus code =>
         if code = 404 then ⟨.ok none, cache, true⟩
         else ⟨.error (.httpError name code), cache, true⟩
       | .fetchTimeout => ⟨.error (.fetchTimeout name), cache, true⟩
       | .networkFailure => ⟨.error (.networkError name), cache, true⟩) := by
  unfold fetch_package_metadata
  rw [h]

lemma releases_ne_of_pymax {pv : Option String} {m : Metadata} {v : Version}
    (hmax : pymax (availableVersions pv m.releases) = some v) :
    m.releases.isEmpty = false := by
  cases hrel : m.releases with
  | nil =>
    rw [hrel] at hmax
    exact Option.noConfusion hmax
  | cons p rest => rfl

lemma resolveEntryCore_match (pv : Option String) (m : Metadata)
    (e : ManifestEntry) (hemp : m.releases.isEmpty = false) :
    resolveEntryCore pv (some m) e =
      (match pymax (availableVersions pv m.releases) with
       | none => Except.error (ResolveError.noCompatibleVersions e.name)
       | some maxAvail =>
         Except.ok (assembleResult pv e
           (availableVersions pv m.releases) maxAvail)) := by
  show (if m.releases.isEmpty then
      (Except.error (ResolveError.noReleases e.name) :
        Except ResolveError ResolutionResult)
    else
      match pymax (availableVersions pv m.releases) with
      | none => Except.error (ResolveError.noCompatibleVersions e.name)
      | some maxAvail =>
        Except.ok (assembleResult pv e
          (availableVersions pv m.releases) maxAvail)) = _
  rw [hemp]
  rfl

lemma resolveEntryCore_some_ok (pv : Option String) (m : Metadata)
    (e : ManifestEntry) (v : Version) (hemp : m.releases.isEmpty = false)
    (hmax : pymax (availableVersions pv m.releases) = some v) :
    resolveEntryCore pv (some m) e =
      .ok (assembleResult pv e (availableVersions pv m.releases) v) := by
  rw [resolveEntryCore_match pv m e hemp, hmax]

lemma resolveEntryCore_ok_entry {pv : Option String} {m? : Option Metadata}
    {e : ManifestEntry} {r : ResolutionResult}
    (h : resolveEntryCore pv m? e = .ok r) : r.entry = e := by
  cases m? with
  | none => exact Except.noConfusion h
  | some m =>
    cases hemp : m.releases.isEmpty with
    | true =>
      have h2 : (if m.releases.isEmpty then
          (Except.error (ResolveError.noReleases e.name) :
            Except ResolveError ResolutionResult)
        else
          match pymax (availableVersions pv m.releases) with
          | none => Except.error (ResolveError.noCompatibleVersions e.name)
          | some maxAvail =>
            Except.ok (assembleResult pv e
              (availableVersions pv m.releases) maxAvail)) = Except.ok r := h
      rw [hemp] at h2
      exact Except.noConfusion h2
    | false =>
      rw [resolveEntryCore_match pv m e hemp] at h
      cases hmax : pymax (availableVersions pv m.releases) with
      | none =>
        rw [hmax] at h
        exact Except.noConfusion h
      | some maxAvail =>
        rw [hmax] at h
        have h3 := Except.ok.inj h
        rw [← h3]
        rfl

lemma get_latest_version_some (m : Metadata) (name : String) :
    get_latest_version (some m) name =
      (match m.info_version with
       | some v => .ok v
       | none =>
         if m.releases.isEmpty then .error (.noReleases name)
         else
           match releaseVersions m with
           | none => .error (.invalidVersion name)
           | some vs =>
             match pymax vs with
             | some v => .ok v.render
             | none => .error (.invalidVersion name)) := rfl

lemma fetch_result_cache_independent (reg : Registry)
    (cache : List (String × Metadata)) (name : String)
    (hcons : cacheConsistent reg cache) :
    (fetch_package_metadata reg cache name).result =
      (fetch_package_metadata reg [] name).result := by
  cases hl : cache.lookup name with
  | some m =>
    rw [fetch_hit reg cache name m hl, fetch_miss reg [] name rfl,
      hcons name m hl]
  | none =>
    rw [fetch_miss reg cache name hl, fetch_miss reg [] name rfl]
    cases hr : reg name with
    | success m => rfl
    | notFound => rfl
    | httpStatus code =>
      show ((if code = 404 then
          (⟨.ok none, cache, true⟩ : FetchOutcome)
        else ⟨.error (.httpError name code), cache, true⟩)).result =
        ((if code = 404 then
          (⟨.ok none, [], true⟩ : FetchOutcome)
        else ⟨.error (.httpError name code), [], true⟩)).result
      by_cases h4 : code = 404
      · rw [if_pos h4, if_pos h4]
      · rw [if_neg h4, if_neg h4]
    | fetchTimeout => rfl
    | networkFailure => rfl

lemma collectResults_ok {E A : Type} :
    ∀ (ts : List (Except E A)) (rs : List A),
      collectResults ts = .ok rs → ts = rs.map Except.ok := by
  intro ts
  induction ts with
  | nil =>
    intro rs h
    have h2 := Except.ok.inj h
    rw [← h2]
    rfl
  | cons t ts ih =>
    intro rs h
    cases t with
    | error e => exact Except.noConfusion h
    | ok a =>
      have h2 : (match collectResults ts with
        | Except.ok rest => Except.ok (a :: rest)
        | Except.error e => (Except.error e : Except E (List A))) =
          Except.ok rs := h
      cases hrec : collectResults ts with
      | error e =>
        rw [hrec] at h2
        exact Except.noConfusion h2
      | ok rest =>
        rw [hrec] at h2
        have h3 := Except.ok.inj h2
        rw [← h3, List.map_cons, ← ih rest hrec]

lemma collectResults_error_of_mem {E A : Type} :
    ∀ (ts : List (Except E A)) (e : E), Except.error e ∈ ts →
      ∃ e2, collectResults ts = .error e2 := by
  intro ts
  induction ts with
  | nil =>
    intro e h
    exact absurd h (List.not_mem_nil _)
  | cons t ts ih =>
    intro e h
    cases t with
    | error e0 => exact ⟨e0, rfl⟩
    | ok a =>
      rcases List.mem_cons.mp h with heq | hmem
      · exact Except.noConfusion heq
      · rcases ih e hmem with ⟨e2, he2⟩
        refine ⟨e2, ?_⟩
        show (match collectResults ts with
          | Except.ok rest => Except.ok (a :: rest)
          | Except.error e3 => (Except.error e3 : Except E (List A))) =
            Except.error e2
        rw [he2]

lemma gatherTasks_ok_collect {E A : Type} {ts : List (Except E A)}
    {order : List Nat} {rs : List A} (h : gatherTasks ts order = .ok rs) :
    collectResults ts = .ok rs := by
  unfold gatherTasks at h
  cases hfs : (order.findSome? fun i =>
      match ts[i]? with
      | some (Except.error e) => some e
      | _ => none) with
  | some e =>
    rw [hfs] at h
    exact Except.noConfusion h
  | none =>
    rw [hfs] at h
    exact h

lemma gatherTasks_ok_of {E A : Type} (ts : List (Except E A)) (rs : List A)
    (order : List Nat) (h : collectResults ts = .ok rs) :
    gatherTasks ts order = .ok rs := by
  have hts := collectResults_ok ts rs h
  unfold gatherTasks
  have hnone : (order.findSome? fun i =>
      match ts[i]? with
      | some (Except.error e) => some e
      | _ => none) = none := by
    rw [List.findSome?_eq_none_iff]
    intro i _
    rw [hts, List.getElem?_map]
    cases rs[i]? with
    | none => rfl
    | some a => rfl
  rw [hnone, h]

lemma gatherTasks_error_of_mem {E A : Type} (ts : List (Except E A)) (e : E)
    (order : List Nat) (h : Except.error e ∈ ts) :
    ∃ e2, gatherTasks ts order = .error e2 := by
  unfold gatherTasks
  cases hfs : (order.findSome? fun i =>
      match ts[i]? with
      | some (Except.error e) => some e
      | _ => none) with
  | some e0 => exact ⟨e0, rfl⟩
  | none =>
    rcases collectResults_error_of_mem ts e h with ⟨e2, he2⟩
    refine ⟨e2, ?_⟩
    show collectResults ts = Except.error e2
    exact he2

lemma resolveOne_ok_entry {pv : Option String} {reg : Registry}
    {cache : List (String × Metadata)} {e : ManifestEntry}
    {r : ResolutionResult} (h : (resolveOne pv reg cache e).1 = .ok r) :
    r.entry = e := by
  have h2 : (match (fetch_package_metadata reg cache e.name).result with
    | Except.error err =>
      ((Except.error err : Except ResolveError ResolutionResult),
        (fetch_package_metadata reg cache e.name).cache)
    | Except.ok m => (resolveEntryCore pv m e,
        (fetch_package_metadata reg cache e.name).cache)).1 = .ok r := h
  cases hres : (fetch_package_metadata reg cache e.name).result with
  | error err =>
    rw [hres] at h2
    exact Except.noConfusion h2
  | ok m =>
    rw [hres] at h2
    exact resolveEntryCore_ok_entry h2

lemma map_entries_of {f : ManifestEntry → Except ResolveError ResolutionResult}
    (hf : ∀ e r, f e = .ok r → r.entry = e) :
    ∀ (entries : List ManifestEntry) (rs : List ResolutionResult),
      entries.map f = rs.map Except.ok →
      rs.map ResolutionResult.entry = entries := by
  intro entries
  induction entries with
  | nil =>
    intro rs h
    cases rs with
    | nil => rfl
    | cons r rs2 => exact List.noConfusion h
  | cons e es ih =>
    intro rs h
    cases rs with
    | nil => exact List.noConfusion h
    | cons r rs2 =>
      rw [List.map_cons, List.map_cons] at h
      injection h with h1 h2
      rw [List.map_cons, hf e r h1, ih rs2 h2]

/-! Claim theorems. -/

/-- C1, counterexample: the filter is NOT conservative in the claimed sense.
With target runtime 3.11, a version whose records are one artifact requiring
Python >= 3.12 and one artifact with no compatibility expression at all is
excluded by `_is_compatible_with_python`, although the claim says a version
with at least one unconstrained artifact record is never excluded. -/
theorem claim_C1_counterexample :
    FileInfo.mk none ∈ [FileInfo.mk (some ">=3.12"), FileInfo.mk none] ∧
    is_compatible_with_python (some "3.11")
      [FileInfo.mk (some ">=3.12"), FileInfo.mk none] = false := by
  refine ⟨?_, rfl⟩
  decide

/-- C1, amended: with a parseable target runtime version, the Compatibility
Filter retains a version iff EVERY artifact record that declares a nonempty,
parseable compatibility expression is satisfied by the target; one
unsatisfied record excludes the version regardless of other compatible or
unconstrained records, and a version none of whose records declare a usable
expression is retained. -/
theorem claim_C1_amended (pv : String) (target : Version)
    (files : List FileInfo) (ht : parseVersion pv = some target) :
    is_compatible_with_python (some pv) files = true ↔
      ∀ fi ∈ files, ∀ rp, fi.requires_python = some rp → rp ≠ "" →
        ∀ specs, parseSpecifierSet rp = some specs →
          specContains specs target = true := by
  show compatLoop pv files = true ↔ _
  induction files with
  | nil => simp [compatLoop]
  | cons fi rest ih =>
    rw [List.forall_mem_cons]
    cases hrp : fi.requires_python with
    | none =>
      rw [show compatLoop pv (fi :: rest) = compatLoop pv rest by
        simp [compatLoop, hrp]]
      rw [ih]
      simp [hrp]
    | some rp =>
      by_cases hrpe : rp = ""
      · subst hrpe
        rw [show compatLoop pv (fi :: rest) = compatLoop pv rest by
          simp [compatLoop, hrp]]
        rw [ih]
        simp [hrp]
      · cases hps : parseSpecifierSet rp with
        | none =>
          rw [show compatLoop pv (fi :: rest) = compatLoop pv rest by
            simp [compatLoop, hrp, hrpe, hps]]
          rw [ih]
          simp [hrp, hps, hrpe]
        | some specs =>
          cases hsc : specContains specs target with
          | true =>
            rw [show compatLoop pv (fi :: rest) = compatLoop pv rest by
              simp [compatLoop, hrp, hrpe, hps, ht, hsc]]
            rw [ih]
            constructor
            · intro h
              refine ⟨?_, h⟩
              intro rp0 hrp0 _ specs0 hps0
              cases hrp0
              rw [hps] at hps0
              cases hps0
              exact hsc
            · intro h
              exact h.2
          | false =>
            rw [show compatLoop pv (fi :: rest) = false by
              simp [compatLoop, hrp, hrpe, hps, ht, hsc]]
            constructor
            · intro h
              exact absurd h (by simp)
            · intro h
              exact absurd (h.1 rp rfl hrpe specs hps) (by simp [hsc])

/-- C1, amended witness: a version whose single artifact record requires
Python >= 3.10 is retained for target 3.11, and one unconstrained record is
retained too. -/
theorem claim_C1_amended_witness :
    is_compatible_with_python (some "3.11")
      [FileInfo.mk (some ">=3.10"), FileInfo.mk none] = true := by
  refine (claim_C1_amended "3.11" ⟨0, [3, 11]⟩
      [FileInfo.mk (some ">=3.10"), FileInfo.mk none] rfl).mpr ?_
  intro fi hfi rp hrp hne specs hps
  rcases List.mem_cons.mp hfi with h | h
  · subst h
    cases hrp
    rw [show parseSpecifierSet ">=3.10" =
        some [⟨Op.ge, ⟨0, [3, 10]⟩⟩] from rfl] at hps
    cases hps
    rfl
  · rcases List.mem_cons.mp h with h2 | h2
    · subst h2
      exact Option.noConfusion hrp
    · exact absurd h2 (List.not_mem_nil fi)

/-- C6, counterexample: with baseline pin `==2.0.0` and chosen version
`1!1.5.0`, the chosen version is strictly greater (epoch dominates) and the
major components differ (1 vs 2), yet the classifier returns `minor`, not
`major` as the claim requires. -/
theorem claim_C6_counterexample :
    parseVersion "2.0.0" = some ⟨0, [2, 0, 0]⟩ ∧
    parseVersion "1!1.5.0" = some ⟨1, [1, 5, 0]⟩ ∧
    Version.lt ⟨0, [2, 0, 0]⟩ ⟨1, [1, 5, 0]⟩ = true ∧
    Version.major ⟨1, [1, 5, 0]⟩ ≠ Version.major ⟨0, [2, 0, 0]⟩ ∧
    calculate_semver_delta ⟨"pkg", some "==2.0.0", none, none, "registry"⟩
      "1!1.5.0" = "minor" := by
  refine ⟨rfl, rfl, rfl, ?_, rfl⟩
  decide

/-- C6, amended: for baseline and chosen versions OF EQUAL EPOCH with chosen
strictly greater, delta classification is monotonic in component precedence:
differing majors give `major` (never `minor`/`patch`), else differing minors
give `minor`, else a differing micro gives `patch`. -/
theorem claim_C6_amended (e : ManifestEntry) (spec new_version : String)
    (old_ver new_ver : Version) (cur : List Char)
    (hspec : e.spec = some spec) (hne : spec ≠ "")
    (hcv : currentVersionOf spec = some cur) (hcne : cur.isEmpty = false)
    (hold : parseVersionChars cur = some old_ver)
    (hnew : parseVersion new_version = some new_ver)
    (hep : old_ver.epoch = new_ver.epoch)
    (hlt : old_ver.lt new_ver = true) :
    (old_ver.major ≠ new_ver.major →
      calculate_semver_delta e new_version = "major") ∧
    (old_ver.major = new_ver.major → old_ver.minor ≠ new_ver.minor →
      calculate_semver_delta e new_version = "minor") ∧
    (old_ver.major = new_ver.major → old_ver.minor = new_ver.minor →
      old_ver.micro ≠ new_ver.micro →
      calculate_semver_delta e new_version = "patch") := by
  have hcalc : calculate_semver_delta e new_version =
      deltaCore old_ver new_ver := by
    unfold calculate_semver_delta
    rw [hspec]
    simp [hne, hcv, hcne, hold, hnew]
  refine ⟨fun h => ?_, fun h1 h2 => ?_, fun h1 h2 h3 => ?_⟩
  · rw [hcalc]
    exact deltaCore_major hep hlt h
  · rw [hcalc]
    exact deltaCore_minor hep hlt h1 h2
  · rw [hcalc]
    exact deltaCore_patch hep hlt h1 h2 h3

/-- C6, amended witness: the spec's concrete scenario 4 — baseline pin
`==0.85.0`, chosen `1.0.0` (equal epochs, majors differ) classifies as
`major`. -/
theorem claim_C6_amended_witness :
    calculate_semver_delta ⟨"fastapi", some "==0.85.0", none, none, "registry"⟩
      "1.0.0" = "major" :=
  (claim_C6_amended ⟨"fastapi", some "==0.85.0", none, none, "registry"⟩
      "==0.85.0" "1.0.0" ⟨0, [0, 85, 0]⟩ ⟨0, [1, 0, 0]⟩ ("0.85.0".data)
      rfl (by decide) rfl rfl rfl rfl rfl rfl).1 (by decide)

/-- C7: a registry 404 (whether short-circuited or raised as a status error)
on an uncached package makes the metadata fetch return the `None`/NotFound
outcome — not a transport error — and resolving an entry for that package
yields the package-not-found error, producing no ResolutionResult. -/
theorem claim_C7 (python_version : Option String) (reg : Registry)
    (cache : List (String × Metadata)) (e : ManifestEntry)
    (hc : cache.lookup e.name = none)
    (h404 : reg e.name = .notFound ∨ reg e.name = .httpStatus 404) :
    fetch_package_metadata reg cache e.name = ⟨.ok none, cache, true⟩ ∧
    (resolveOne python_version reg cache e).1 =
      .error (.packageNotFound e.name) := by
  have hf : fetch_package_metadata reg cache e.name =
      ⟨.ok none, cache, true⟩ := by
    rw [fetch_miss reg cache e.name hc]
    rcases h404 with h | h <;> rw [h]
    rfl
  refine ⟨hf, ?_⟩
  unfold resolveOne
  rw [hf]
  rfl

/-- C7, witness: a registry with no packages at all makes the resolver fail
with package-not-found for entry `ghost`. -/
theorem claim_C7_witness :
    (resolveOne none (fun _ => RegistryResponse.notFound) []
      ⟨"ghost", none, none, none, "registry"⟩).1 =
      .error (.packageNotFound "ghost") :=
  (claim_C7 none (fun _ => RegistryResponse.notFound) []
    ⟨"ghost", none, none, none, "registry"⟩ rfl (Or.inl rfl)).2

/-- C9: the metadata cache only ever holds successfully fetched metadata —
consistency with the registry is preserved by every fetch; a 404 leaves the
cache unchanged and uses the network (so a repeated fetch of a missing
package hits the network again), while a successful fetch stores the value
and a subsequent fetch of the same name returns it without the network. -/
theorem claim_C9 (reg : Registry) (cache : List (String × Metadata))
    (name : String) (hcons : cacheConsistent reg cache) :
    cacheConsistent reg (fetch_package_metadata reg cache name).cache ∧
    (reg name = .notFound → cache.lookup name = none →
      fetch_package_metadata reg cache name = ⟨.ok none, cache, true⟩) ∧
    (∀ m, reg name = .success m → cache.lookup name = none →
      fetch_package_metadata reg cache name =
        ⟨.ok (some m), (name, m) :: cache, true⟩ ∧
      fetch_package_metadata reg ((name, m) :: cache) name =
        ⟨.ok (some m), (name, m) :: cache, false⟩) := by
  refine ⟨?_, ?_, ?_⟩
  · cases hl : cache.lookup name with
    | some m =>
      rw [fetch_hit reg cache name m hl]
      exact hcons
    | none =>
      rw [fetch_miss reg cache name hl]
      cases hr : reg name with
      | success m =>
        show cacheConsistent reg ((name, m) :: cache)
        intro k m0 hk
        by_cases hkn : k = name
        · subst hkn
          rw [show List.lookup k ((k, m) :: cache) = some m by
            simp [List.lookup]] at hk
          cases hk
          exact hr
        · rw [show List.lookup k ((name, m) :: cache) = cache.lookup k by
            have hbe : (k == name) = false := by
              cases hbe : k == name
              · rfl
              · exact absurd (eq_of_beq hbe) hkn
            simp [List.lookup, hbe]] at hk
          exact hcons k m0 hk
      | notFound => exact hcons
      | httpStatus code =>
        show cacheConsistent reg
          ((if code = 404 then
              (⟨.ok none, cache, true⟩ : FetchOutcome)
            else ⟨.error (.httpError name code), cache, true⟩)).cache
        by_cases hcode : code = 404
        · rw [if_pos hcode]
          exact hcons
        · rw [if_neg hcode]
          exact hcons
      | fetchTimeout => exact hcons
      | networkFailure => exact hcons
  · intro hr hl
    rw [fetch_miss reg cache name hl, hr]
  · intro m hr hl
    constructor
    · rw [fetch_miss reg cache name hl, hr]
    · exact fetch_hit reg ((name, m) :: cache) name m (by simp [List.lookup])

/-- C9, witness: concrete registry with one package — fetching it twice uses
the network once, and the second fetch is served from the cache. -/
theorem claim_C9_witness :
    fetch_package_metadata
      (fun n => if n = "pkg" then
        RegistryResponse.success ⟨some "1.0.0", [("1.0.0", [])]⟩
      else RegistryResponse.notFound)
      [("pkg", ⟨some "1.0.0", [("1.0.0", [])]⟩)] "pkg" =
      ⟨.ok (some ⟨some "1.0.0", [("1.0.0", [])]⟩),
        [("pkg", ⟨some "1.0.0", [("1.0.0", [])]⟩)], false⟩ :=
  ((claim_C9
      (fun n => if n = "pkg" then
        RegistryResponse.success ⟨some "1.0.0", [("1.0.0", [])]⟩
      else RegistryResponse.notFound)
      [] "pkg"
      (fun _ _ h => Option.noConfusion h)).2.2
    ⟨some "1.0.0", [("1.0.0", [])]⟩ rfl rfl).2

/-- C10: `get_latest_version` returns the `info.version` field as-is whenever
it is present — whatever the releases mapping holds — and only when it is
absent computes the maximum of the (parseable) release keys. -/
theorem claim_C10 (m : Metadata) (name : String) :
    (∀ v, m.info_version = some v →
      get_latest_version (some m) name = .ok v) ∧
    (m.info_version = none → m.releases ≠ [] →
      ∀ vs, releaseVersions m = some vs →
        ∃ v, pymax vs = some v ∧
          get_latest_version (some m) name = .ok v.render) := by
  constructor
  · intro v hv
    rw [get_latest_version_some, hv]
  · intro hinfo hrel vs hvs
    have hvs_ne : vs ≠ [] := releaseVersions_ne_nil hrel hvs
    have hemp : m.releases.isEmpty = false := by
      cases hm : m.releases with
      | nil => exact absurd hm hrel
      | cons p rest => rfl
    cases hp : pymax vs with
    | none =>
      exfalso
      cases hvv : vs with
      | nil => exact hvs_ne hvv
      | cons a rest =>
        rw [hvv] at hp
        exact Option.noConfusion hp
    | some v =>
      refine ⟨v, rfl, ?_⟩
      rw [get_latest_version_some, hinfo, hemp, hvs]
      show (match pymax vs with
            | some v => Except.ok v.render
            | none =>
              Except.error (ResolveError.invalidVersion name)) =
          Except.ok v.render
      rw [hp]

/-- C10, witness: metadata whose `info.version` is `1.0.0` while the releases
mapping holds the strictly greater `2.0.0`; the latest version reported is
still `1.0.0`. -/
theorem claim_C10_witness :
    get_latest_version (some ⟨some "1.0.0", [("2.0.0", [])]⟩) "pkg" =
      .ok "1.0.0" :=
  (claim_C10 ⟨some "1.0.0", [("2.0.0", [])]⟩ "pkg").1 "1.0.0" rfl

/-- C3: batch resolution returns one result per entry with the same order as
the input regardless of the completion order of the fetches: any completion
order that yields a successful batch yields the same ordered list, whose
i-th result carries the i-th input entry; and if any single entry's
resolution fails, the batch fails for every completion order, with no
partial-result list produced. -/
theorem claim_C3 (pv : Option String) (reg : Registry)
    (cache : List (String × Metadata)) (entries : List ManifestEntry) :
    (∀ (order : List Nat) (rs : List ResolutionResult),
      resolve_entries pv reg cache entries order = .ok rs →
      rs.length = entries.length ∧
      rs.map ResolutionResult.entry = entries) ∧
    (∀ (order1 order2 : List Nat) (rs : List ResolutionResult),
      resolve_entries pv reg cache entries order1 = .ok rs →
      resolve_entries pv reg cache entries order2 = .ok rs) ∧
    (∀ (order : List Nat) (e0 : ManifestEntry) (err : ResolveError),
      e0 ∈ entries → (resolveOne pv reg cache e0).1 = .error err →
      ∃ err2, resolve_entries pv reg cache entries order = .error err2) := by
  refine ⟨?_, ?_, ?_⟩
  · intro order rs h
    have hcol : collectResults (tasksOf pv reg cache entries) = .ok rs :=
      gatherTasks_ok_collect h
    have hts := collectResults_ok _ rs hcol
    constructor
    · have h2 : entries.length = rs.length := by
        simpa [tasksOf] using congrArg List.length hts
      exact h2.symm
    · exact map_entries_of (fun e r hh => resolveOne_ok_entry hh)
        entries rs hts
  · intro o1 o2 rs h1
    exact gatherTasks_ok_of _ rs o2 (gatherTasks_ok_collect h1)
  · intro order e0 err hmem herr
    apply gatherTasks_error_of_mem (tasksOf pv reg cache entries) err order
    show Except.error err ∈ entries.map (fun e => (resolveOne pv reg cache e).1)
    exact List.mem_map.mpr ⟨e0, hmem, herr⟩

/-- Registry used by the C3 witness: two real packages. -/
def regW3 : Registry := fun name =>
  if name = "alpha" then .success ⟨none, [("1.0.0", []), ("2.0.0", [])]⟩
  else if name = "beta" then .success ⟨none, [("0.2.0", []), ("0.3.0", [])]⟩
  else .notFound

/-- First entry of the C3 witness. -/
def entW3A : ManifestEntry := ⟨"alpha", none, none, none, "registry"⟩

/-- Second entry of the C3 witness. -/
def entW3B : ManifestEntry := ⟨"beta", some ">=0.1.0", none, none, "registry"⟩

/-- Successful batch result of the C3 witness run. -/
def rsW3 : List ResolutionResult :=
  match resolve_entries none regW3 [] [entW3A, entW3B] [1, 0] with
  | .ok rs => rs
  | .error _ => []

/-- C3, witness: entries [alpha, beta] resolved with completion order
[beta, alpha] still return [result-for-alpha, result-for-beta]. -/
theorem claim_C3_witness :
    (resolve_entries none regW3 [] [entW3A, entW3B] [1, 0]).toOption.map
      (List.map ResolutionResult.entry) = some [entW3A, entW3B] := by
  have hrun : resolve_entries none regW3 [] [entW3A, entW3B] [1, 0] =
      .ok rsW3 := rfl
  have h := ((claim_C3 none regW3 [] [entW3A, entW3B]).1 [1, 0] rsW3 hrun).2
  rw [hrun]
  show some (rsW3.map ResolutionResult.entry) = some [entW3A, entW3B]
  rw [h]

/-- C2, counterexample: with target Python 3.11, releases 1.0.0 (no
constraint) and 2.0.0 (requires Python >= 3.12), and unsatisfiable specifier
`==9.9.9`, the resolver chooses 1.0.0 — the maximum of the
compatibility-FILTERED candidates — while the maximum of the full unfiltered
candidate set claimed by C2 is 2.0.0. -/
theorem claim_C2_counterexample :
    (resolveEntryCore (some "3.11")
        (some ⟨none, [("1.0.0", []), ("2.0.0", [⟨some ">=3.12"⟩])]⟩)
        ⟨"pkg", some "==9.9.9", none, none, "registry"⟩).toOption.map
      ResolutionResult.chosen_version = some "1.0.0" ∧
    unfilteredMax ⟨none, [("1.0.0", []), ("2.0.0", [⟨some ">=3.12"⟩])]⟩ =
      some ⟨0, [2, 0, 0]⟩ ∧
    Version.render ⟨0, [2, 0, 0]⟩ = "2.0.0" ∧
    ("1.0.0" : String) ≠ "2.0.0" := by
  refine ⟨rfl, rfl, rfl, ?_⟩
  decide

/-- C2, amended: for an entry whose specifier parses but is satisfied by no
candidate, the resolver falls back to the maximum of the
compatibility-filtered candidate set (not the unfiltered one), the reason
text says the constraint is unsatisfiable, and resolution succeeds. -/
theorem claim_C2_amended (pv : Option String) (m : Metadata)
    (e : ManifestEntry) (spec : String) (specs : List Specifier) (v : Version)
    (hspec : e.spec = some spec) (hne : spec ≠ "")
    (hparse : parseSpecifierSet spec = some specs)
    (hmax : pymax (availableVersions pv m.releases) = some v)
    (hunsat : (availableVersions pv m.releases).filter
      (specContains specs) = []) :
    ∃ r, resolveEntryCore pv (some m) e = .ok r ∧
      r.chosen_version = v.render ∧
      r.reason = withPythonContext pv
        s!"No versions satisfy {spec}, using latest available" := by
  refine ⟨_, resolveEntryCore_some_ok pv m e v (releases_ne_of_pymax hmax)
    hmax, ?_, ?_⟩
  · show (selectVersion (availableVersions pv m.releases) v e.spec).1.render =
      v.render
    rw [hspec]
    simp [selectVersion, hne, hparse, hunsat, pymax]
  · show withPythonContext pv
      (selectVersion (availableVersions pv m.releases) v e.spec).2 = _
    rw [hspec]
    simp [selectVersion, hne, hparse, hunsat, pymax]

/-- C2, amended witness: one candidate 1.0.0 with unsatisfiable pin
`==9.9.9`; the entry still resolves, to 1.0.0. -/
theorem claim_C2_amended_witness :
    (resolveEntryCore none (some ⟨none, [("1.0.0", [])]⟩)
        ⟨"pkg", some "==9.9.9", none, none, "registry"⟩).toOption.map
      ResolutionResult.chosen_version = some "1.0.0" := by
  obtain ⟨r, hr, hcv, _⟩ := claim_C2_amended none ⟨none, [("1.0.0", [])]⟩
    ⟨"pkg", some "==9.9.9", none, none, "registry"⟩ "==9.9.9"
    [⟨Op.eq, ⟨0, [9, 9, 9]⟩⟩] ⟨0, [1, 0, 0]⟩ rfl (by decide) rfl rfl rfl
  rw [hr]
  show some r.chosen_version = some "1.0.0"
  rw [hcv]
  rfl

/-- C4: for an entry with no specifier, the chosen version is the maximum of
the compatibility-filtered candidates under the semantic component-wise
version order — it is one of the candidates and no candidate is strictly
greater. -/
theorem claim_C4 (pv : Option String) (m : Metadata) (e : ManifestEntry)
    (v : Version) (hspec : e.spec = none)
    (hmax : pymax (availableVersions pv m.releases) = some v) :
    v ∈ availableVersions pv m.releases ∧
    (∀ w ∈ availableVersions pv m.releases, v.lt w = false) ∧
    ∃ r, resolveEntryCore pv (some m) e = .ok r ∧
      r.chosen_version = v.render := by
  refine ⟨pymax_mem hmax, pymax_ge hmax, _,
    resolveEntryCore_some_ok pv m e v (releases_ne_of_pymax hmax) hmax, ?_⟩
  show (selectVersion (availableVersions pv m.releases) v e.spec).1.render =
    v.render
  rw [hspec]
  rfl

/-- C4, witness: the spec's concrete scenario 1 — releases 0.85.0, 0.100.0,
0.115.0 with no specifier resolve to 0.115.0 (the lexical string maximum
would instead be 0.85.0). -/
theorem claim_C4_witness :
    (resolveEntryCore none
        (some ⟨none, [("0.85.0", []), ("0.100.0", []), ("0.115.0", [])]⟩)
        ⟨"fastapi", none, none, none, "registry"⟩).toOption.map
      ResolutionResult.chosen_version = some "0.115.0" := by
  obtain ⟨_, _, r, hr, hcv⟩ := claim_C4 none
    ⟨none, [("0.85.0", []), ("0.100.0", []), ("0.115.0", [])]⟩
    ⟨"fastapi", none, none, none, "registry"⟩ ⟨0, [0, 115, 0]⟩ rfl rfl
  rw [hr]
  show some r.chosen_version = some "0.115.0"
  rw [hcv]
  rfl

/-- C5: the delta classifier returns `unknown` when the baseline specifier is
absent; when the specifier is neither an exact `==` pin nor a bare version
(any range/comparison constraint); when the extracted baseline fails to
parse as a version; when the chosen version fails to parse; and when the
chosen version is not strictly greater than the baseline (including no
change). The classifier is a total function into reason strings, so none of
these cases can fail the overall resolution. -/
theorem claim_C5 :
    (∀ (e : ManifestEntry) (new_version : String), e.spec = none →
      calculate_semver_delta e new_version = "unknown") ∧
    (∀ (e : ManifestEntry) (spec new_version : String),
      e.spec = some spec → currentVersionOf spec = none →
      calculate_semver_delta e new_version = "unknown") ∧
    (∀ (e : ManifestEntry) (spec new_version : String) (cur : List Char),
      e.spec = some spec → currentVersionOf spec = some cur →
      parseVersionChars cur = none →
      calculate_semver_delta e new_version = "unknown") ∧
    (∀ (e : ManifestEntry) (spec new_version : String) (cur : List Char)
      (old_ver : Version),
      e.spec = some spec → currentVersionOf spec = some cur →
      parseVersionChars cur = some old_ver →
      parseVersion new_version = none →
      calculate_semver_delta e new_version = "unknown") ∧
    (∀ (e : ManifestEntry) (spec new_version : String) (cur : List Char)
      (old_ver new_ver : Version),
      e.spec = some spec → currentVersionOf spec = some cur →
      parseVersionChars cur = some old_ver →
      parseVersion new_version = some new_ver →
      old_ver.lt new_ver = false →
      calculate_semver_delta e new_version = "unknown") := by
  refine ⟨?_, ?_, ?_, ?_, ?_⟩
  · intro e nv h
    unfold calculate_semver_delta
    rw [h]
  · intro e spec nv hspec hcv
    unfold calculate_semver_delta
    rw [hspec]
    by_cases hse : spec = ""
    · simp [hse]
    · simp [hse, hcv]
  · intro e spec nv cur hspec hcv hpc
    unfold calculate_semver_delta
    rw [hspec]
    by_cases hse : spec = ""
    · simp [hse]
    · cases hce : cur.isEmpty <;> simp [hse, hcv, hce, hpc]
  · intro e spec nv cur old_ver hspec hcv hpc hnv
    unfold calculate_semver_delta
    rw [hspec]
    by_cases hse : spec = ""
    · simp [hse]
    · cases hce : cur.isEmpty <;> simp [hse, hcv, hce, hpc, hnv]
  · intro e spec nv cur old_ver new_ver hspec hcv hpc hnv hlt
    unfold calculate_semver_delta
    rw [hspec]
    by_cases hse : spec = ""
    · simp [hse]
    · cases hce : cur.isEmpty <;>
        simp [hse, hcv, hce, hpc, hnv, deltaCore, hlt]

/-- C5, witness: resolving an already-latest pin — baseline `==1.2.3` with
chosen `1.2.3` (no forward progress) — classifies as `unknown`. -/
theorem claim_C5_witness :
    calculate_semver_delta ⟨"pkg", some "==1.2.3", none, none, "registry"⟩
      "1.2.3" = "unknown" :=
  claim_C5.2.2.2.2 ⟨"pkg", some "==1.2.3", none, none, "registry"⟩ "==1.2.3"
    "1.2.3" ("1.2.3".data) ⟨0, [1, 2, 3]⟩ ⟨0, [1, 2, 3]⟩ rfl rfl rfl rfl rfl

/-- C8: an entry whose specifier fails to parse resolves exactly like the
no-specifier case — to the maximum of the candidate set — with no error, and
the reason records that the invalid constraint was ignored. -/
theorem claim_C8 (pv : Option String) (m : Metadata) (e : ManifestEntry)
    (spec : String) (v : Version)
    (hspec : e.spec = some spec) (hne : spec ≠ "")
    (hbad : parseSpecifierSet spec = none)
    (hmax : pymax (availableVersions pv m.releases) = some v) :
    ∃ r, resolveEntryCore pv (some m) e = .ok r ∧
      r.chosen_version = v.render ∧
      r.reason = withPythonContext pv
        s!"Invalid constraint {spec}, using latest available" ∧
      ∃ r2, resolveEntryCore pv (some m) { e with spec := none } = .ok r2 ∧
        r2.chosen_version = r.chosen_version := by
  refine ⟨_, resolveEntryCore_some_ok pv m e v (releases_ne_of_pymax hmax)
    hmax, ?_, ?_, _,
    resolveEntryCore_some_ok pv m { e with spec := none } v
      (releases_ne_of_pymax hmax) hmax, ?_⟩
  · show (selectVersion (availableVersions pv m.releases) v e.spec).1.render =
      v.render
    rw [hspec]
    simp [selectVersion, hne, hbad]
  · show withPythonContext pv
      (selectVersion (availableVersions pv m.releases) v e.spec).2 = _
    rw [hspec]
    simp [selectVersion, hne, hbad]
  · show (selectVersion (availableVersions pv m.releases) v none).1.render =
      (selectVersion (availableVersions pv m.releases) v e.spec).1.render
    rw [hspec]
    simp [selectVersion, hne, hbad]

/-- C8, witness: specifier `not a spec` on a two-candidate package resolves
to the maximum 2.0.0 without an error. -/
theorem claim_C8_witness :
    (resolveEntryCore none (some ⟨none, [("1.0.0", []), ("2.0.0", [])]⟩)
        ⟨"pkg", some "not a spec", none, none, "registry"⟩).toOption.map
      ResolutionResult.chosen_version = some "2.0.0" := by
  obtain ⟨r, hr, hcv, _, _⟩ := claim_C8 none
    ⟨none, [("1.0.0", []), ("2.0.0", [])]⟩
    ⟨"pkg", some "not a spec", none, none, "registry"⟩ "not a spec"
    ⟨0, [2, 0, 0]⟩ rfl (by decide) rfl rfl
  rw [hr]
  show some r.chosen_version = some "2.0.0"
  rw [hcv]
  rfl

end DepFix
